import Mathlib

/-!
Formal model of the LaTeXclippings core (file `latexclippings.py`, with the
page-numbering part of `svgfromlatex.py`): the document assembler
(`LatexFile._init_chunks` / `_LatexChunk.__init__`), the serializer
(`__str__`), the log parser / error localizer (`_parse_pdflatex_log` and the
two-line fatal-error regex), the failure fallback in `_pdflatex`, and the
measurement extractor (`_load_svgs_from_pdf`, `render`).

Strings are modelled as `List Char`.  Python `str.split(sep)` and
`sep.join(...)` are modelled by `pySplit` and `pyJoin` below.  External
subprocesses (pdflatex, inkscape) are modelled at their interface: the
captured log text, the exit status, and the per-page cropped-SVG query
function are parameters.
-/

/-- Convert a Lean string literal to the `List Char` representation used
throughout the model. -/
def str (s : String) : List Char := s.data

/-- The newline separator, as used by Python `"\n".join` / `split("\n")`. -/
def nl : List Char := str "\n"

/-- Python `s.split(sep)` for a non-empty separator, with explicit fuel so
that the recursion is structural (fuel decreases by one at each step; any
fuel larger than the input length gives the true result).  Scans left to
right; on finding `sep` as a prefix of the remainder it emits the piece
accumulated so far and skips `sep`, exactly like CPython's `str.split`. -/
def pySplitF {α : Type} [BEq α] (sep : List α) : Nat → List α → List (List α)
  | 0, _ => []
  | _ + 1, [] => [[]]
  | fuel + 1, x :: xs =>
    if !sep.isEmpty && sep.isPrefixOf (x :: xs) then
      [] :: pySplitF sep fuel ((x :: xs).drop sep.length)
    else
      match pySplitF sep fuel xs with
      | [] => [[x]]
      | piece :: pieces => (x :: piece) :: pieces

/-- Python `s.split(sep)`: run `pySplitF` with enough fuel. -/
def pySplit {α : Type} [BEq α] (sep : List α) (xs : List α) : List (List α) :=
  pySplitF sep (xs.length + 1) xs

/-- Python `sep.join(pieces)`. -/
def pyJoin {α : Type} (sep : List α) : List (List α) → List α
  | [] => []
  | [piece] => piece
  | piece :: piece2 :: pieces => piece ++ sep ++ pyJoin sep (piece2 :: pieces)

/-- Predicate: `sep` has no nontrivial border: no proper, non-empty suffix-by-position
`sep.drop k` is also a prefix of `sep`.  This rules out occurrences of `sep`
that straddle a junction in a concatenation. -/
def noBorder {α : Type} [BEq α] (sep : List α) : Prop :=
  ∀ k, k < sep.length → 0 < k → (sep.drop k).isPrefixOf sep = false

/-- Model of `_LatexChunk` of `latexclippings.py`: a named block of LaTeX source
lines together with the bookkeeping added by its constructor. -/
structure LatexChunk where
  name : List Char
  clipping_index : Option Nat
  lines : List (List Char)
  source_start : Nat
deriving DecidableEq

/-- Model of `_LatexChunk.CHUNK_HEADER`. -/
def CHUNK_HEADER : List Char := str "SVGFROMLATEX CHUNK HEADER"

/-- The string the log is split on: `CHUNK_HEADER + "\n"`. -/
def chunkSep : List Char := CHUNK_HEADER ++ nl

/-- Model of `_LatexChunk.__init__(name, lines, new_page, clipping_index)`:
`self.lines` starts with the `\typeout` marker line, then `\newpage` when
`new_page` is set, then the given source lines; `source_start` counts the
inserted wrapper lines. -/
def mkChunk (name : List Char) (lines : List (List Char)) (new_page : Bool)
    (clipping_index : Option Nat) : LatexChunk :=
  { name := name
    clipping_index := clipping_index
    lines := [str "\\typeout\x7bSVGFROMLATEX CHUNK HEADER\x7d"]
      ++ (if new_page then [str "\\newpage"] else []) ++ lines
    source_start := 1 + (if new_page then 1 else 0) }

/-- The two chunks emitted for clipping number `clipping_index` inside the
loop of `LatexFile._init_chunks`: the clipping rendered normally, and the
clipping wrapped in a `clipbox` that keeps only the part below the
baseline.  (The second chunk's name is the literal string
`"clipping {clipping_index} (below baseline only)"`: the source uses a
plain string, not an f-string, there.) -/
def clippingChunks (clipping_index : Nat) (clipping : List Char) : List LatexChunk :=
  let clipping_lines := pySplit nl clipping
  [ mkChunk (str "clipping " ++ (Nat.repr clipping_index).data) clipping_lines
      true (some clipping_index)
  , mkChunk (str "clipping \x7bclipping_index\x7d (below baseline only)")
      ([str "\\begin\x7bclipbox\x7d\x7b0 0 0 \x7b\\height\x7d\x7d\\vbox\x7b"]
        ++ clipping_lines ++ [str "\x7d\\end\x7bclipbox\x7d"])
      true (some clipping_index) ]

/-- Model of `LatexFile._init_chunks(preamble, clippings)`: the preamble chunk, the
lowercase-x reference chunk, two chunks per clipping in input order, and the
closing chunk. -/
def init_chunks (preamble : List Char) (clippings : List (List Char)) :
    List LatexChunk :=
  [ mkChunk (str "preamble")
      (pySplit nl preamble
        ++ [str "\\usepackage\x7btrimclip\x7d", str "\\begin\x7bdocument\x7d"])
      false none
  , mkChunk (str "lowercase x") [str "x"] true none ]
  ++ clippings.enum.flatMap (fun ic => clippingChunks ic.1 ic.2)
  ++ [ mkChunk (str "document end") [str "\\end\x7bdocument\x7d"] false none ]

/-- Model of `_LatexChunk.__str__`: the chunk's lines joined by newlines. -/
def chunkStr (chunk : LatexChunk) : List Char := pyJoin nl chunk.lines

/-- Model of `LatexFile.__str__`: the chunks' serializations joined by newlines. -/
def latexFileStr (chunks : List LatexChunk) : List Char :=
  pyJoin nl (chunks.map chunkStr)

/-- The `LatexError` exception of `latexclippings.py` (its constructor
arguments).  `line_num` is an integer: the Python subtraction is unchecked
and can in principle go negative on an adversarial log. -/
structure LatexError where
  clipping_index : Option Nat
  location : List Char
  line_num : Int
  error_msg : List Char
  context : List Char
deriving DecidableEq

/-- Python `range(lo, hi)` over integers. -/
def intRange (lo hi : Int) : List Int :=
  (List.range (hi - lo).toNat).map (fun k : Nat => lo + (k : Int))

/-- The `context_lines` list built by `LatexFile._parse_pdflatex_log`:
iterate `i` over `range(max(chunk.source_start, chunk_line_num - 2),
min(len(chunk), chunk_line_num + 3))`, prefixing line `i` of the chunk with
`"> "` when it is the offending line and `"  "` otherwise.  (`len(chunk)` is
`len(chunk.lines)`.) -/
def contextLines (chunk : LatexChunk) (chunk_line_num : Int) : List (List Char) :=
  (intRange (max (chunk.source_start : Int) (chunk_line_num - 2))
      (min (chunk.lines.length : Int) (chunk_line_num + 3))).map
    (fun i =>
      (if i = chunk_line_num then str "> " else str "  ")
        ++ chunk.lines.getD i.toNat [])

/-- The `context` string: `"\n".join(context_lines)`. -/
def contextFor (chunk : LatexChunk) (chunk_line_num : Int) : List Char :=
  pyJoin nl (contextLines chunk chunk_line_num)

/-- The `LatexError` raised by `LatexFile._parse_pdflatex_log` when the
regex matched in the section paired with chunk number `chunk_index`, with
captured message `error_msg` and captured (one-indexed) line number
`line_num`. -/
def errorFor (chunks : List LatexChunk) (chunk_index : Nat) (chunk : LatexChunk)
    (error_msg : List Char) (line_num : Nat) : LatexError :=
  let file_line_num : Int := (line_num : Int) - 1
  let chunk_line_num : Int :=
    file_line_num - ((chunks.take chunk_index).map (fun c => (c.lines.length : Int))).sum
  { clipping_index := chunk.clipping_index
    location := chunk.name
    line_num := chunk_line_num - (chunk.source_start : Int) + 1
    error_msg := error_msg
    context := contextFor chunk chunk_line_num }

/-- Python `int(...)` on a string of decimal digits. -/
def digitsToNat (ds : List Char) : Nat :=
  ds.foldl (fun acc c => 10 * acc + (c.toNat - 48)) 0

/-- One candidate match of `LatexFile._pdflatex_error_regex`
(`^! (?P<error_msg>.*)[\n]l\.(?P<line_num>[0-9]+) (?P<line_contents>.*)$`
with `re.MULTILINE`) at a pair of adjacent lines: the first line must start
with `"! "` (the rest is the message), the second must start with `"l."`
followed by at least one digit and then a space (the digits are the
reported line number; the rest is the echoed line contents, which the
parser matches but never uses). -/
def matchFatalPair (l1 l2 : List Char) : Option (List Char × Nat) :=
  if (str "! ").isPrefixOf l1 then
    if (str "l.").isPrefixOf l2 then
      let after_l := l2.drop 2
      let digits := after_l.takeWhile Char.isDigit
      if !digits.isEmpty && (str " ").isPrefixOf (after_l.drop digits.length) then
        some (l1.drop 2, digitsToNat digits)
      else none
    else none
  else none

/-- Model of `re.search` of the fatal-error regex over a list of lines: the first
adjacent pair matching `matchFatalPair`, scanning top to bottom. -/
def findFatalInLines : List (List Char) → Option (List Char × Nat)
  | [] => none
  | [_] => none
  | l1 :: l2 :: ls =>
    match matchFatalPair l1 l2 with
    | some r => some r
    | none => findFatalInLines (l2 :: ls)

/-- Model of `re.search(_pdflatex_error_regex, log_section, re.MULTILINE)`: with
`re.MULTILINE`, `^`/`[\n]`/`$` make the regex match exactly at an adjacent
pair of newline-separated lines, leftmost first. -/
def findFatal (log_section : List Char) : Option (List Char × Nat) :=
  findFatalInLines (pySplit nl log_section)

/-- The loop of `LatexFile._parse_pdflatex_log` over
`zip(self.chunks, log_sections, itertools.count())`, reduced to its control
flow: return the `LatexError` for the first section whose regex search
succeeds, or `none` when no paired section matches.  (The loop also assigns
`clipping.log` along the way; that assignment never affects which error is
raised.) -/
def scanSections (chunks : List LatexChunk) :
    Nat → List LatexChunk → List (List Char) → Option LatexError
  | _, [], _ => none
  | _, _ :: _, [] => none
  | chunk_index, chunk :: cs, log_section :: ss =>
    match findFatal log_section with
    | some r => some (errorFor chunks chunk_index chunk r.1 r.2)
    | none => scanSections chunks (chunk_index + 1) cs ss

/-- Model of `LatexFile._parse_pdflatex_log(log)`: split the log on
`CHUNK_HEADER + "\n"`, drop the pre-first-marker prologue (`[1:]`), and
scan the sections in chunk order. -/
def parse_pdflatex_log (chunks : List LatexChunk) (log : List Char) :
    Option LatexError :=
  let log_sections := (pySplit chunkSep log).drop 1
  scanSections chunks 0 chunks log_sections

/-- Outcome of `LatexFile._pdflatex` as observable by the caller. -/
inductive PdflatexOutcome where
  | latexError (e : LatexError)
  | valueError (log : List Char)
  | ok
deriving DecidableEq

/-- The error-handling tail of `LatexFile._pdflatex`: first
`_parse_pdflatex_log` runs on the captured stdout (raising `LatexError` on
a recognized fatal pattern); then `check_returncode` raises
`ValueError(pdflatex_process.stdout)` when the exit status is non-zero;
otherwise the PDF path is returned.  The subprocess itself is the external
boundary: its exit status and captured stdout are parameters. -/
def pdflatexOutcome (chunks : List LatexChunk) (exit_status : Nat)
    (log : List Char) : PdflatexOutcome :=
  match parse_pdflatex_log chunks log with
  | some e => .latexError e
  | none => if exit_status ≠ 0 then .valueError log else .ok

/-- Model of `_SVG` of `latexclippings.py` (also `_InkscapeSVG` of
`svgfromlatex.py`): a cropped page with its width and height in device
units.  Dimensions are modelled as exact rationals. -/
structure SVG where
  width : Rat
  height : Rat
  source : List Char
deriving DecidableEq

instance : Inhabited SVG := ⟨⟨0, 0, []⟩⟩

/-- The measurement fields `LatexFile._load_svgs_from_pdf` assigns onto one
`LatexClipping`. -/
structure Measurement where
  svg : List Char
  width : Rat
  height : Rat
  depth : Rat
deriving DecidableEq

instance : Inhabited Measurement := ⟨⟨[], 0, 0, 0⟩⟩

/-- Model of `LatexFile._load_svgs_from_pdf`: `one_ex` is the cropped height of page
1; for the clipping at (0-indexed) position `i`, `index = i + 1` (the loop
zips with `itertools.count(1)`), the full render is cropped page
`2 * index` and the below-baseline render is cropped page `2 * index + 1`.
`cropped_pdf_page` is the external inkscape boundary, keyed by the
1-indexed page number it is asked for. -/
def load_svgs_from_pdf (cropped_pdf_page : Nat → SVG) (num_clippings : Nat) :
    List Measurement :=
  let one_ex := (cropped_pdf_page 1).height
  (List.range num_clippings).map (fun i =>
    let index := i + 1
    let image_full := cropped_pdf_page (2 * index)
    let image_below_baseline := cropped_pdf_page (2 * index + 1)
    { svg := image_full.source
      width := image_full.width / one_ex
      height := image_full.height / one_ex
      depth := image_below_baseline.height / one_ex })

/-- Model of `LatexSVG` of `svgfromlatex.py` (the fields its constructor receives). -/
structure LatexSVG where
  latex : List Char
  svg : List Char
  width : Rat
  height : Rat
  depth : Rat
deriving DecidableEq

instance : Inhabited LatexSVG := ⟨⟨[], [], 0, 0, 0⟩⟩

/-- Model of `_inkscape(pdf, page)` of `svgfromlatex.py`: inkscape is invoked with
`--pdf-page={page + 1}`, so the 0-indexed argument queries 1-indexed page
`page + 1` of the external boundary. -/
def inkscapePage (cropped_pdf_page : Nat → SVG) (page : Nat) : SVG :=
  cropped_pdf_page (page + 1)

/-- The measurement part of `render` in `svgfromlatex.py`:
`svg_pages = [_inkscape(pdf, i) for i in range(len(latex_pages))]` with
`len(latex_pages) = 2 * len(sources) + 1`, `one_ex = svg_pages[0].height`,
and for each source index `i` the full render is `svg_pages[2 * i + 1]` and
the below-baseline render is `svg_pages[2 * i + 2]`. -/
def render (cropped_pdf_page : Nat → SVG) (sources : List (List Char)) :
    List LatexSVG :=
  let svg_pages := (List.range (2 * sources.length + 1)).map
    (fun i => inkscapePage cropped_pdf_page i)
  let one_ex := (svg_pages.getD 0 default).height
  (List.range sources.length).map (fun i =>
    let svg_page_full := svg_pages.getD (2 * i + 1) default
    let svg_page_below_baseline := svg_pages.getD (2 * i + 2) default
    { latex := sources.getD i []
      svg := svg_page_full.source
      width := svg_page_full.width / one_ex
      height := svg_page_full.height / one_ex
      depth := svg_page_below_baseline.height / one_ex })

/-- Scale every device-unit dimension of a cropped page by `k` (the source
text is unchanged). -/
def scaleSVG (k : Rat) (s : SVG) : SVG :=
  { width := k * s.width, height := k * s.height, source := s.source }

instance : Inhabited LatexChunk := ⟨⟨[], none, [], 0⟩⟩

theorem pySplitF_fuel_irrel {α : Type} [BEq α] (sep : List α) :
    ∀ f1 : Nat, ∀ f2 : Nat, ∀ xs : List α, xs.length < f1 → xs.length < f2 →
      pySplitF sep f1 xs = pySplitF sep f2 xs := by
  intro f1
  induction f1 with
  | zero => intro f2 xs h1 h2; omega
  | succ f ih =>
    intro f2 xs h1 h2
    match f2, xs with
    | g + 1, [] => rfl
    | g + 1, x :: xs =>
      simp only [pySplitF]
      by_cases hc : (!sep.isEmpty && sep.isPrefixOf (x :: xs)) = true
      · rw [if_pos hc, if_pos hc]
        have hsep : 1 ≤ sep.length := by
          cases sep with
          | nil => simp at hc
          | cons a as => simp
        have hlt : ((x :: xs).drop sep.length).length < f := by
          simp only [List.length_drop, List.length_cons]
          simp only [List.length_cons] at h1
          omega
        have hlt2 : ((x :: xs).drop sep.length).length < g := by
          simp only [List.length_drop, List.length_cons]
          simp only [List.length_cons] at h2
          omega
        rw [ih g ((x :: xs).drop sep.length) hlt hlt2]
      · rw [if_neg hc, if_neg hc]
        have hx1 : xs.length < f := by
          simp only [List.length_cons] at h1; omega
        have hx2 : xs.length < g := by
          simp only [List.length_cons] at h2; omega
        rw [ih g xs hx1 hx2]

theorem pySplit_nil {α : Type} [BEq α] (sep : List α) : pySplit sep [] = [[]] := rfl

theorem pySplit_cons_pos {α : Type} [BEq α] {sep : List α} {x : α} {xs : List α}
    (hsep : sep ≠ []) (hpre : sep.isPrefixOf (x :: xs) = true) :
    pySplit sep (x :: xs) = [] :: pySplit sep ((x :: xs).drop sep.length) := by
  have hne : sep.isEmpty = false := by
    cases sep with
    | nil => exact absurd rfl hsep
    | cons a as => rfl
  have hlen : 1 ≤ sep.length := by
    cases sep with
    | nil => exact absurd rfl hsep
    | cons a as => simp
  show pySplitF sep ((x :: xs).length + 1) (x :: xs) = _
  simp only [List.length_cons]
  simp only [pySplitF]
  rw [if_pos (by rw [hne, hpre]; rfl)]
  have hd : ((x :: xs).drop sep.length).length < xs.length + 1 := by
    simp only [List.length_drop, List.length_cons]
    omega
  rw [pySplitF_fuel_irrel sep (xs.length + 1) (((x :: xs).drop sep.length).length + 1)
    ((x :: xs).drop sep.length) hd (Nat.lt_succ_self _)]
  rfl

theorem pySplit_cons_neg {α : Type} [BEq α] {sep : List α} {x : α} {xs : List α}
    (h : (!sep.isEmpty && sep.isPrefixOf (x :: xs)) = false) :
    pySplit sep (x :: xs) =
      match pySplit sep xs with
      | [] => [[x]]
      | piece :: pieces => (x :: piece) :: pieces := by
  show pySplitF sep ((x :: xs).length + 1) (x :: xs) = _
  simp only [List.length_cons]
  simp only [pySplitF]
  rw [if_neg (by rw [h]; simp)]
  rfl

theorem pySplit_ne_nil {α : Type} [BEq α] (sep : List α) (xs : List α) :
    pySplit sep xs ≠ [] := by
  cases xs with
  | nil => simp [pySplit_nil]
  | cons x xs =>
    by_cases hc : (!sep.isEmpty && sep.isPrefixOf (x :: xs)) = true
    · have hsep : sep ≠ [] := by
        cases sep with
        | nil => simp at hc
        | cons a as => simp
      rw [pySplit_cons_pos hsep (by
        cases hand : sep.isPrefixOf (x :: xs) with
        | true => rfl
        | false => rw [hand] at hc; simp at hc)]
      simp
    · rw [pySplit_cons_neg (by revert hc; cases (!sep.isEmpty && sep.isPrefixOf (x :: xs)) <;> simp)]
      cases hsx : pySplit sep xs with
      | nil => simp
      | cons p ps => simp

theorem pySplit_no_occurrence {α : Type} [BEq α] [LawfulBEq α] {sep : List α} :
    ∀ {xs : List α}, ¬ sep <:+: xs → pySplit sep xs = [xs] := by
  intro xs
  induction xs with
  | nil => intro _; exact pySplit_nil sep
  | cons x xs ih =>
    intro h
    have hcond : (!sep.isEmpty && sep.isPrefixOf (x :: xs)) = false := by
      cases hpre : sep.isPrefixOf (x :: xs) with
      | false => simp [hpre]
      | true =>
        exact absurd ( List.IsPrefix.isInfix (( List.isPrefixOf_iff_prefix).mp hpre)) h
    rw [pySplit_cons_neg hcond]
    rw [ih (fun hin => h ( List.infix_cons hin))]

theorem pySplit_append_sep {α : Type} [BEq α] [LawfulBEq α] {sep : List α}
    (hnb : noBorder sep) (hsep : sep ≠ []) :
    ∀ {a : List α}, ¬ sep <:+: a →
      ∀ ys : List α, pySplit sep (a ++ sep ++ ys) = a :: pySplit sep ys := by
  intro a
  induction a with
  | nil =>
    intro _ ys
    simp only [List.nil_append]
    cases hs : sep with
    | nil => exact absurd hs hsep
    | cons s ss =>
      rw [← hs]
      have hcons : sep ++ ys = s :: (ss ++ ys) := by rw [hs]; rfl
      rw [hcons]
      rw [pySplit_cons_pos hsep (by
        rw [ List.isPrefixOf_iff_prefix, ← hcons]
        exact List.prefix_append sep ys)]
      rw [← hcons, List.drop_left]
  | cons x a ih =>
    intro h ys
    have hnotpre : sep.isPrefixOf ((x :: a) ++ sep ++ ys) = false := by
      cases hpre : sep.isPrefixOf ((x :: a) ++ sep ++ ys) with
      | false => rfl
      | true =>
        exfalso
        have hp : sep <+: (x :: a) ++ sep ++ ys := ( List.isPrefixOf_iff_prefix).mp hpre
        have htake : sep = ((x :: a) ++ sep ++ ys).take sep.length :=
          ( List.prefix_iff_eq_take).mp hp
        have h1 : x :: a ++ sep ++ ys = (x :: a) ++ (sep ++ ys) := by
          rw [List.append_assoc]
        rw [h1, List.take_append_eq_append_take] at htake
        by_cases hle : sep.length ≤ (x :: a).length
        · rw [Nat.sub_eq_zero_of_le hle, List.take_zero, List.append_nil] at htake
          have hpre2 : sep <+: (x :: a) := by
            rw [htake]; exact List.take_prefix _ _
          exact h ( List.IsPrefix.isInfix hpre2)
        · push_neg at hle
          rw [List.take_of_length_le (le_of_lt hle),
            List.take_append_eq_append_take] at htake
          have hz : sep.length - (x :: a).length - sep.length = 0 := by omega
          rw [hz, List.take_zero, List.append_nil] at htake
          have hdrop : sep.drop (x :: a).length
              = sep.take (sep.length - (x :: a).length) := by
            conv_lhs => rw [htake]
            rw [List.drop_left]
          have hborder := hnb (x :: a).length hle (by simp)
          rw [hdrop] at hborder
          have htrue : (sep.take (sep.length - (x :: a).length)).isPrefixOf sep
              = true := by
            rw [ List.isPrefixOf_iff_prefix]
            exact List.take_prefix _ _
          rw [htrue] at hborder
          simp at hborder
    have hcond : (!sep.isEmpty && sep.isPrefixOf ((x :: a) ++ sep ++ ys)) = false := by
      rw [hnotpre]; simp
    have hxcons : (x :: a) ++ sep ++ ys = x :: (a ++ sep ++ ys) := by simp
    rw [hxcons] at hcond
    rw [hxcons, pySplit_cons_neg hcond]
    have hrec := ih (fun hin => h ( List.infix_cons hin)) ys
    rw [hrec]

theorem pySplit_marked_bodies {α : Type} [BEq α] [LawfulBEq α] {sep : List α}
    (hnb : noBorder sep) (hsep : sep ≠ []) :
    ∀ bodies : List (List α), (∀ b ∈ bodies, ¬ sep <:+: b) →
      ∀ a : List α, ¬ sep <:+: a →
        pySplit sep (a ++ (bodies.map (fun b => sep ++ b)).flatten) = a :: bodies := by
  intro bodies
  induction bodies with
  | nil =>
    intro _ a ha
    simp only [List.map_nil, List.flatten_nil, List.append_nil]
    rw [pySplit_no_occurrence ha]
  | cons b bs ih =>
    intro hb a ha
    have hre : a ++ ((b :: bs).map (fun b => sep ++ b)).flatten
        = a ++ sep ++ (b ++ (bs.map (fun b => sep ++ b)).flatten) := by
      simp [List.append_assoc]
    rw [hre, pySplit_append_sep hnb hsep ha]
    rw [ih (fun x hx => hb x (List.mem_cons_of_mem b hx)) b (hb b (List.mem_cons_self b bs))]

theorem pyJoin_append {α : Type} (sep : List α) :
    ∀ u v : List (List α), u ≠ [] → v ≠ [] →
      pyJoin sep (u ++ v) = pyJoin sep u ++ sep ++ pyJoin sep v := by
  intro u
  induction u with
  | nil => intro v hu _; exact absurd rfl hu
  | cons p u ih =>
    intro v _ hv
    cases u with
    | nil =>
      cases v with
      | nil => exact absurd rfl hv
      | cons q v => simp [pyJoin]
    | cons p2 u2 =>
      have : pyJoin sep ((p :: p2 :: u2) ++ v) = p ++ sep ++ pyJoin sep ((p2 :: u2) ++ v) := by
        simp [pyJoin]
      rw [this, ih v (by simp) hv]
      simp [pyJoin, List.append_assoc]

theorem pyJoin_flatten {α : Type} (sep : List α) :
    ∀ bs : List (List (List α)), (∀ b ∈ bs, b ≠ []) →
      pyJoin sep (bs.map (pyJoin sep)) = pyJoin sep bs.flatten := by
  intro bs
  induction bs with
  | nil => intro _; rfl
  | cons b bs ih =>
    intro h
    cases bs with
    | nil => simp [pyJoin]
    | cons b2 bs2 =>
      have hb : b ≠ [] := h b (List.mem_cons_self _ _)
      have hb2 : b2 ≠ [] := h b2 (by simp)
      have hflat : (b2 :: bs2).flatten ≠ [] := by
        cases b2 with
        | nil => exact absurd rfl hb2
        | cons y ys => simp [List.flatten_cons]
      have hmap : ((b :: b2 :: bs2).map (pyJoin sep))
          = pyJoin sep b :: (b2 :: bs2).map (pyJoin sep) := by simp
      rw [hmap]
      have hstep : pyJoin sep (pyJoin sep b :: (b2 :: bs2).map (pyJoin sep))
          = pyJoin sep b ++ sep ++ pyJoin sep ((b2 :: bs2).map (pyJoin sep)) := by
        simp [pyJoin]
      rw [hstep, ih (fun x hx => h x (List.mem_cons_of_mem b hx))]
      conv_rhs => rw [List.flatten_cons]
      rw [pyJoin_append sep b (b2 :: bs2).flatten hb hflat]

theorem pySplit_single_no_sep_in_piece {α : Type} [BEq α] [LawfulBEq α] (c : α) :
    ∀ xs : List α, ∀ piece ∈ pySplit [c] xs, c ∉ piece := by
  intro xs
  induction xs with
  | nil =>
    intro piece hp
    rw [pySplit_nil] at hp
    simp at hp
    simp [hp]
  | cons x xs ih =>
    intro piece hp
    by_cases hx : x = c
    · rw [pySplit_cons_pos (by simp) (by simp [List.isPrefixOf, hx])] at hp
      simp only [List.length_cons, List.length_nil, List.drop_succ_cons,
        List.drop_zero] at hp
      rcases List.mem_cons.mp hp with h1 | h2
      · simp [h1]
      · exact ih piece h2
    · have hcond : (!([c] : List α).isEmpty && ([c] : List α).isPrefixOf (x :: xs)) = false := by
        simp [List.isPrefixOf]
        intro he
        exact absurd he.symm hx
      rw [pySplit_cons_neg hcond] at hp
      cases hsx : pySplit [c] xs with
      | nil => exact absurd hsx (pySplit_ne_nil [c] xs)
      | cons p ps =>
        rw [hsx] at hp
        rcases List.mem_cons.mp hp with h1 | h2
        · subst h1
          intro hmem
          rcases List.mem_cons.mp hmem with h3 | h4
          · exact hx h3.symm
          · exact ih p (by rw [hsx]; exact List.mem_cons_self _ _) h4
        · exact ih piece (by rw [hsx]; exact List.mem_cons_of_mem p h2)

theorem pySplit_pyJoin_single {α : Type} [BEq α] [LawfulBEq α] (c : α) :
    ∀ ls : List (List α), ls ≠ [] → (∀ l ∈ ls, c ∉ l) →
      pySplit [c] (pyJoin [c] ls) = ls := by
  intro ls
  induction ls with
  | nil => intro h _; exact absurd rfl h
  | cons a ls ih =>
    intro _ h
    cases ls with
    | nil =>
      show pySplit [c] (pyJoin [c] [a]) = [a]
      have hno : ¬ [c] <:+: a := by
        intro hin
        exact h a (List.mem_cons_self _ _) (hin.subset (List.mem_singleton_self c))
      simp only [pyJoin]
      exact pySplit_no_occurrence hno
    | cons a2 ls2 =>
      have hstep : pyJoin [c] (a :: a2 :: ls2) = a ++ [c] ++ pyJoin [c] (a2 :: ls2) := by
        simp [pyJoin]
      have hnb : noBorder ([c] : List α) := by
        intro k h1 h2
        simp at h1
        omega
      have hna : ¬ [c] <:+: a := by
        intro hin
        exact h a (List.mem_cons_self _ _) (hin.subset (List.mem_singleton_self c))
      rw [hstep, pySplit_append_sep hnb (by simp) hna]
      rw [ih (by simp) (fun l hl => h l (List.mem_cons_of_mem a hl))]

theorem scanSections_none (chunks : List LatexChunk) :
    ∀ cs : List LatexChunk, ∀ ss : List (List Char), ∀ idx : Nat,
      (∀ k, k < cs.length → k < ss.length → findFatal (ss.getD k []) = none) →
      scanSections chunks idx cs ss = none := by
  intro cs
  induction cs with
  | nil => intro ss idx _; cases ss <;> rfl
  | cons ch cs ih =>
    intro ss idx h
    cases ss with
    | nil => rfl
    | cons s ss =>
      have h0 := h 0 (by simp) (by simp)
      simp only [List.getD_cons_zero] at h0
      show (match findFatal s with
        | some r => some (errorFor chunks idx ch r.1 r.2)
        | none => scanSections chunks (idx + 1) cs ss) = none
      rw [h0]
      exact ih ss (idx + 1) (fun k hk1 hk2 => by
        have := h (k + 1) (by simpa using Nat.succ_lt_succ hk1)
          (by simpa using Nat.succ_lt_succ hk2)
        simpa using this)

theorem scanSections_some (chunks : List LatexChunk) :
    ∀ c : Nat, ∀ cs : List LatexChunk, ∀ ss : List (List Char), ∀ idx : Nat,
      c < cs.length → c < ss.length →
      (∀ k, k < c → findFatal (ss.getD k []) = none) →
      ∀ msg : List Char, ∀ n : Nat, findFatal (ss.getD c []) = some (msg, n) →
      scanSections chunks idx cs ss
        = some (errorFor chunks (idx + c) (cs.getD c default) msg n) := by
  intro c
  induction c with
  | zero =>
    intro cs ss idx hc hs _ msg n hf
    match cs, ss, hc, hs with
    | ch :: cs, s :: ss, _, _ =>
      simp only [List.getD_cons_zero] at hf
      show (match findFatal s with
        | some r => some (errorFor chunks idx ch r.1 r.2)
        | none => scanSections chunks (idx + 1) cs ss) = _
      rw [hf]
      simp
  | succ c ih =>
    intro cs ss idx hc hs hprev msg n hf
    match cs, ss, hc, hs with
    | ch :: cs, s :: ss, hc, hs =>
      have h0 := hprev 0 (Nat.succ_pos c)
      simp only [List.getD_cons_zero] at h0
      show (match findFatal s with
        | some r => some (errorFor chunks idx ch r.1 r.2)
        | none => scanSections chunks (idx + 1) cs ss) = _
      rw [h0]
      have := ih cs ss (idx + 1) (by simpa using hc) (by simpa using hs)
        (fun k hk => by
          have := hprev (k + 1) (Nat.succ_lt_succ hk)
          simpa using this)
        msg n (by simpa using hf)
      rw [this]
      have harith : idx + 1 + c = idx + (c + 1) := by omega
      rw [harith]
      rfl

theorem findFatalInLines_first (lines : List (List Char)) :
    ∀ j : Nat, j + 1 < lines.length →
      (∀ j2, j2 < j → matchFatalPair (lines.getD j2 []) (lines.getD (j2 + 1) []) = none) →
      ∀ msg : List Char, ∀ n : Nat,
        matchFatalPair (lines.getD j []) (lines.getD (j + 1) []) = some (msg, n) →
        findFatalInLines lines = some (msg, n) := by
  induction lines with
  | nil => intro j hj; simp at hj
  | cons l1 ls ih =>
    intro j hj hprev msg n hm
    cases ls with
    | nil => simp at hj
    | cons l2 ls2 =>
      cases j with
      | zero =>
        simp only [List.getD_cons_zero, Nat.zero_add, List.getD_cons_succ] at hm
        show (match matchFatalPair l1 l2 with
          | some r => some r
          | none => findFatalInLines (l2 :: ls2)) = _
        rw [hm]
      | succ j =>
        have h0 := hprev 0 (Nat.succ_pos j)
        simp only [List.getD_cons_zero, Nat.zero_add, List.getD_cons_succ] at h0
        show (match matchFatalPair l1 l2 with
          | some r => some r
          | none => findFatalInLines (l2 :: ls2)) = _
        rw [h0]
        exact ih j (by simpa using hj)
          (fun j2 hj2 => by
            have := hprev (j2 + 1) (Nat.succ_lt_succ hj2)
            simpa using this)
          msg n (by simpa using hm)

theorem nl_eq : nl = ['\n'] := rfl

theorem mkChunk_source_start (name : List Char) (lines : List (List Char))
    (new_page : Bool) (ci : Option Nat) :
    (mkChunk name lines new_page ci).source_start = if new_page then 2 else 1 := by
  cases new_page <;> rfl

theorem mkChunk_lines (name : List Char) (lines : List (List Char))
    (new_page : Bool) (ci : Option Nat) :
    (mkChunk name lines new_page ci).lines
      = str "\\typeout\x7bSVGFROMLATEX CHUNK HEADER\x7d"
        :: ((if new_page then [str "\\newpage"] else []) ++ lines) := by
  cases new_page <;> rfl

theorem mkChunk_lines_ne_nil (name : List Char) (lines : List (List Char))
    (new_page : Bool) (ci : Option Nat) :
    (mkChunk name lines new_page ci).lines ≠ [] := by
  rw [mkChunk_lines]
  simp

theorem mkChunk_lines_mem (name : List Char) (lines : List (List Char))
    (new_page : Bool) (ci : Option Nat)
    (hl : ∀ l ∈ lines, ('\n') ∉ l) :
    ∀ l ∈ (mkChunk name lines new_page ci).lines, ('\n') ∉ l := by
  intro l hmem
  rw [mkChunk_lines] at hmem
  rcases List.mem_cons.mp hmem with h1 | h2
  · subst h1; decide
  · rcases List.mem_append.mp h2 with h3 | h4
    · cases new_page with
      | false => simp at h3
      | true =>
        simp only [if_true] at h3
        rcases List.mem_singleton.mp h3 with h5
        subst h5; decide
    · exact hl l h4

theorem pySplit_nl_nl_free (s : List Char) :
    ∀ l ∈ pySplit nl s, ('\n') ∉ l := by
  rw [nl_eq]
  exact fun l hl => pySplit_single_no_sep_in_piece '\n' s l hl

theorem mem_init_chunks (p : List Char) (cs : List (List Char)) (ch : LatexChunk)
    (h : ch ∈ init_chunks p cs) :
    ch = mkChunk (str "preamble")
        (pySplit nl p
          ++ [str "\\usepackage\x7btrimclip\x7d", str "\\begin\x7bdocument\x7d"])
        false none
    ∨ ch = mkChunk (str "lowercase x") [str "x"] true none
    ∨ (∃ i : Nat, ∃ c : List Char, ch ∈ clippingChunks i c)
    ∨ ch = mkChunk (str "document end") [str "\\end\x7bdocument\x7d"] false none := by
  simp only [init_chunks, List.append_assoc, List.mem_append, List.mem_cons,
    List.not_mem_nil, or_false, List.mem_flatMap] at h
  rcases h with (h1 | h1) | h2 | h3
  · exact Or.inl h1
  · exact Or.inr (Or.inl h1)
  · rcases h2 with ⟨ic, _, hmem⟩
    exact Or.inr (Or.inr (Or.inl ⟨ic.1, ic.2, hmem⟩))
  · exact Or.inr (Or.inr (Or.inr h3))

theorem clippingChunks_mem_shape (i : Nat) (c : List Char) (ch : LatexChunk)
    (h : ch ∈ clippingChunks i c) :
    ch = mkChunk (str "clipping " ++ (Nat.repr i).data) (pySplit nl c) true (some i)
    ∨ ch = mkChunk (str "clipping \x7bclipping_index\x7d (below baseline only)")
        ([str "\\begin\x7bclipbox\x7d\x7b0 0 0 \x7b\\height\x7d\x7d\\vbox\x7b"]
          ++ pySplit nl c ++ [str "\x7d\\end\x7bclipbox\x7d"])
        true (some i) := by
  simp only [clippingChunks, List.mem_cons, List.not_mem_nil, or_false] at h
  exact h

theorem init_chunks_source_start_pos (p : List Char) (cs : List (List Char))
    (ch : LatexChunk) (h : ch ∈ init_chunks p cs) : 1 ≤ ch.source_start := by
  rcases mem_init_chunks p cs ch h with h1 | h1 | ⟨i, c, h1⟩ | h1
  · rw [h1, mkChunk_source_start]; simp
  · rw [h1, mkChunk_source_start]; simp
  · rcases clippingChunks_mem_shape i c ch h1 with h2 | h2 <;>
      (rw [h2, mkChunk_source_start]; simp)
  · rw [h1, mkChunk_source_start]; simp

theorem init_chunks_lines_ne_nil (p : List Char) (cs : List (List Char))
    (ch : LatexChunk) (h : ch ∈ init_chunks p cs) : ch.lines ≠ [] := by
  rcases mem_init_chunks p cs ch h with h1 | h1 | ⟨i, c, h1⟩ | h1
  · rw [h1]; exact mkChunk_lines_ne_nil _ _ _ _
  · rw [h1]; exact mkChunk_lines_ne_nil _ _ _ _
  · rcases clippingChunks_mem_shape i c ch h1 with h2 | h2 <;>
      (rw [h2]; exact mkChunk_lines_ne_nil _ _ _ _)
  · rw [h1]; exact mkChunk_lines_ne_nil _ _ _ _

theorem init_chunks_lines_nl_free (p : List Char) (cs : List (List Char))
    (ch : LatexChunk) (h : ch ∈ init_chunks p cs) :
    ∀ l ∈ ch.lines, ('\n') ∉ l := by
  rcases mem_init_chunks p cs ch h with h1 | h1 | ⟨i, c, h1⟩ | h1
  · rw [h1]
    refine mkChunk_lines_mem _ _ _ _ ?_
    intro l hl
    rcases List.mem_append.mp hl with h2 | h2
    · exact pySplit_nl_nl_free p l h2
    · rcases List.mem_cons.mp h2 with h3 | h3
      · subst h3; decide
      · rcases List.mem_singleton.mp h3 with h4
        subst h4; decide
  · rw [h1]
    refine mkChunk_lines_mem _ _ _ _ ?_
    intro l hl
    rcases List.mem_singleton.mp hl with h2
    subst h2; decide
  · rcases clippingChunks_mem_shape i c ch h1 with h2 | h2
    · rw [h2]
      refine mkChunk_lines_mem _ _ _ _ ?_
      exact pySplit_nl_nl_free c
    · rw [h2]
      refine mkChunk_lines_mem _ _ _ _ ?_
      intro l hl
      rcases List.mem_append.mp hl with h3 | h3
      · rcases List.mem_append.mp h3 with h4 | h4
        · rcases List.mem_singleton.mp h4 with h5
          subst h5; decide
        · exact pySplit_nl_nl_free c l h4
      · rcases List.mem_singleton.mp h3 with h5
        subst h5; decide
  · rw [h1]
    refine mkChunk_lines_mem _ _ _ _ ?_
    intro l hl
    rcases List.mem_singleton.mp hl with h2
    subst h2; decide

theorem flatten_getD {α : Type} :
    ∀ bs : List (List α), ∀ i j : Nat, ∀ d : α, i < bs.length →
      j < (bs.getD i []).length →
      bs.flatten.getD (((bs.take i).map List.length).sum + j) d
        = (bs.getD i []).getD j d := by
  intro bs
  induction bs with
  | nil => intro i j d hi _; simp at hi
  | cons b bs ih =>
    intro i j d hi hj
    cases i with
    | zero =>
      simp only [List.take_zero, List.map_nil, List.sum_nil, Nat.zero_add,
        List.getD_cons_zero] at hj ⊢
      rw [List.flatten_cons]
      exact List.getD_append b bs.flatten d j hj
    | succ i =>
      simp only [List.getD_cons_succ] at hj ⊢
      rw [List.flatten_cons]
      have htake : ((b :: bs).take (i + 1)).map List.length
          = b.length :: (bs.take i).map List.length := by
        simp
      rw [htake, List.sum_cons]
      have harith : b.length + ((bs.take i).map List.length).sum + j
          = b.length + (((bs.take i).map List.length).sum + j) := by omega
      rw [harith]
      rw [List.getD_append_right b bs.flatten d _ (by omega)]
      have harith2 : b.length + (((bs.take i).map List.length).sum + j) - b.length
          = ((bs.take i).map List.length).sum + j := by omega
      rw [harith2]
      exact ih i j d (by simpa using hi) hj

theorem clipping_flatMap_length :
    ∀ cs : List (List Char), ∀ k : Nat,
      ((cs.enumFrom k).flatMap (fun ic => clippingChunks ic.1 ic.2)).length
        = 2 * cs.length := by
  intro cs
  induction cs with
  | nil => intro k; rfl
  | cons c cs ih =>
    intro k
    rw [List.enumFrom_cons]
    show ((clippingChunks k c) ++ (cs.enumFrom (k + 1)).flatMap
      (fun ic => clippingChunks ic.1 ic.2)).length = _
    rw [List.length_append, ih (k + 1)]
    simp [clippingChunks]
    omega

theorem clipping_flatMap_getD :
    ∀ cs : List (List Char), ∀ k i : Nat, i < cs.length →
      ((cs.enumFrom k).flatMap (fun ic => clippingChunks ic.1 ic.2)).getD (2 * i) default
          = (clippingChunks (k + i) (cs.getD i [])).getD 0 default
      ∧ ((cs.enumFrom k).flatMap (fun ic => clippingChunks ic.1 ic.2)).getD (2 * i + 1) default
          = (clippingChunks (k + i) (cs.getD i [])).getD 1 default := by
  intro cs
  induction cs with
  | nil => intro k i hi; simp at hi
  | cons c cs ih =>
    intro k i hi
    rw [List.enumFrom_cons]
    have hshow : ((k, c) :: cs.enumFrom (k + 1)).flatMap
          (fun ic => clippingChunks ic.1 ic.2)
        = clippingChunks k c ++ (cs.enumFrom (k + 1)).flatMap
          (fun ic => clippingChunks ic.1 ic.2) := rfl
    rw [hshow]
    cases i with
    | zero =>
      constructor
      · rw [List.getD_append _ _ _ _ (by simp [clippingChunks])]
        simp
      · rw [List.getD_append _ _ _ _ (by simp [clippingChunks])]
        simp
    | succ i =>
      have hlen : (clippingChunks k c).length = 2 := by simp [clippingChunks]
      have hi2 : i < cs.length := by simpa using hi
      have h1 := (ih (k + 1) i hi2).1
      have h2 := (ih (k + 1) i hi2).2
      constructor
      · rw [List.getD_append_right _ _ _ _ (by omega)]
        rw [hlen]
        have : 2 * (i + 1) - 2 = 2 * i := by omega
        rw [this, h1]
        have : k + 1 + i = k + (i + 1) := by omega
        rw [this]
        simp
      · rw [List.getD_append_right _ _ _ _ (by omega)]
        rw [hlen]
        have : 2 * (i + 1) + 1 - 2 = 2 * i + 1 := by omega
        rw [this, h2]
        have : k + 1 + i = k + (i + 1) := by omega
        rw [this]
        simp

theorem range_map_getD {β : Type} (n i : Nat) (f : Nat → β) (d : β) (h : i < n) :
    ((List.range n).map f).getD i d = f i := by
  rw [List.getD_eq_getElem _ _ (by simpa using h)]
  rw [List.getElem_map]
  congr 1
  exact List.getElem_range i _

/-- Claim C9: every chunk constructed by `_LatexChunk.__init__` satisfies
`len(rendered_lines) >= len(source_lines)` and
`source_start + len(source_lines) <= len(rendered_lines)`, for every chunk
name, source-line list, page-break flag and unit index. -/
theorem chunk_bookkeeping_invariant (name : List Char)
    (source_lines : List (List Char)) (new_page : Bool) (unit_index : Option Nat) :
    source_lines.length ≤ (mkChunk name source_lines new_page unit_index).lines.length
    ∧ (mkChunk name source_lines new_page unit_index).source_start
        + source_lines.length
      ≤ (mkChunk name source_lines new_page unit_index).lines.length := by
  cases new_page <;> simp [mkChunk] <;> omega

/-- Claim C5: when the compiler exits with a failure status and the log
scan finds no fatal pattern, `_pdflatex` raises a `ValueError` carrying the
raw captured log verbatim (not a synthesized `LatexError`), and a failing
exit status never yields the success outcome. -/
theorem raw_log_failure_fallback (chunks : List LatexChunk) (exit_status : Nat)
    (log : List Char) (hexit : exit_status ≠ 0) :
    (parse_pdflatex_log chunks log = none →
        pdflatexOutcome chunks exit_status log = PdflatexOutcome.valueError log)
    ∧ pdflatexOutcome chunks exit_status log ≠ PdflatexOutcome.ok := by
  constructor
  · intro hnone
    simp only [pdflatexOutcome, hnone, if_pos hexit]
  · simp only [pdflatexOutcome]
    cases parse_pdflatex_log chunks log with
    | some e => simp
    | none => simp [hexit]

theorem raw_log_failure_fallback_witness :
    (parse_pdflatex_log (init_chunks (str "p") []) (str "hello") = none →
        pdflatexOutcome (init_chunks (str "p") []) 1 (str "hello")
          = PdflatexOutcome.valueError (str "hello"))
    ∧ pdflatexOutcome (init_chunks (str "p") []) 1 (str "hello")
        ≠ PdflatexOutcome.ok :=
  raw_log_failure_fallback (init_chunks (str "p") []) 1 (str "hello") (by decide)

/-- Claim C2: for every snippet index `i` (0-indexed), the measurement
extractor of `latexclippings.py` queries cropped page `2*i + 2` (1-indexed)
for the normal render, page `2*i + 3` for the below-baseline render and
page 1 for the reference glyph; and `render` of `svgfromlatex.py` queries
the same 1-indexed pages for the same roles. -/
theorem page_number_mapping (cropped_pdf_page : Nat → SVG)
    (sources : List (List Char)) (i : Nat) (hi : i < sources.length) :
    (load_svgs_from_pdf cropped_pdf_page sources.length).getD i default
        = { svg := (cropped_pdf_page (2 * i + 2)).source
            width := (cropped_pdf_page (2 * i + 2)).width
              / (cropped_pdf_page 1).height
            height := (cropped_pdf_page (2 * i + 2)).height
              / (cropped_pdf_page 1).height
            depth := (cropped_pdf_page (2 * i + 3)).height
              / (cropped_pdf_page 1).height }
    ∧ (render cropped_pdf_page sources).getD i default
        = { latex := sources.getD i []
            svg := (cropped_pdf_page (2 * i + 2)).source
            width := (cropped_pdf_page (2 * i + 2)).width
              / (cropped_pdf_page 1).height
            height := (cropped_pdf_page (2 * i + 2)).height
              / (cropped_pdf_page 1).height
            depth := (cropped_pdf_page (2 * i + 3)).height
              / (cropped_pdf_page 1).height } := by
  constructor
  · simp only [load_svgs_from_pdf]
    rw [range_map_getD _ _ _ _ hi]
    have h2 : 2 * (i + 1) = 2 * i + 2 := by omega
    have h3 : 2 * (i + 1) + 1 = 2 * i + 3 := by omega
    rw [h3, h2]
  · simp only [render, inkscapePage]
    rw [range_map_getD _ _ _ _ hi]
    rw [range_map_getD _ _ _ _ (by omega : 2 * i + 1 < 2 * sources.length + 1)]
    rw [range_map_getD _ _ _ _ (by omega : 2 * i + 2 < 2 * sources.length + 1)]
    rw [range_map_getD _ _ _ _ (by omega : 0 < 2 * sources.length + 1)]

theorem page_number_mapping_witness :
    (load_svgs_from_pdf (fun _ => ⟨1, 1, []⟩) ([str "a"]).length).getD 0 default
        = { svg := ([] : List Char), width := 1 / 1, height := 1 / 1, depth := 1 / 1 }
    ∧ (render (fun _ => ⟨1, 1, []⟩) [str "a"]).getD 0 default
        = { latex := ([str "a"]).getD 0 []
            svg := ([] : List Char), width := 1 / 1, height := 1 / 1, depth := 1 / 1 } :=
  page_number_mapping (fun _ => ⟨1, 1, []⟩) [str "a"] 0 (by decide)

/-- Claim C7: each clipping's measurements are
`width = normal.width / one_ex`, `height = normal.height / one_ex`,
`depth = below_baseline.height / one_ex` with `one_ex` the reference page's
cropped height, and (over exact rational arithmetic) scaling every
device-unit input by any `k > 0` leaves all three font-relative outputs
(and the whole measurement record) unchanged. -/
theorem normalization_scale_invariance (cropped_pdf_page : Nat → SVG)
    (num_clippings i : Nat) (k : Rat) (hi : i < num_clippings) (hk : 0 < k) :
    ((load_svgs_from_pdf cropped_pdf_page num_clippings).getD i default).width
        = (cropped_pdf_page (2 * i + 2)).width / (cropped_pdf_page 1).height
    ∧ ((load_svgs_from_pdf cropped_pdf_page num_clippings).getD i default).height
        = (cropped_pdf_page (2 * i + 2)).height / (cropped_pdf_page 1).height
    ∧ ((load_svgs_from_pdf cropped_pdf_page num_clippings).getD i default).depth
        = (cropped_pdf_page (2 * i + 3)).height / (cropped_pdf_page 1).height
    ∧ (load_svgs_from_pdf (fun p => scaleSVG k (cropped_pdf_page p))
          num_clippings).getD i default
        = (load_svgs_from_pdf cropped_pdf_page num_clippings).getD i default := by
  have h2 : 2 * (i + 1) = 2 * i + 2 := by omega
  have h3 : 2 * (i + 1) + 1 = 2 * i + 3 := by omega
  refine ⟨?_, ?_, ?_, ?_⟩
  · simp only [load_svgs_from_pdf]
    rw [range_map_getD _ _ _ _ hi, h2]
  · simp only [load_svgs_from_pdf]
    rw [range_map_getD _ _ _ _ hi, h2]
  · simp only [load_svgs_from_pdf]
    rw [range_map_getD _ _ _ _ hi, h3]
  · simp only [load_svgs_from_pdf]
    rw [range_map_getD _ _ _ _ hi, range_map_getD _ _ _ _ hi]
    simp only [scaleSVG]
    have hkne : k ≠ 0 := ne_of_gt hk
    congr 1
    · exact mul_div_mul_left _ _ hkne
    · exact mul_div_mul_left _ _ hkne
    · exact mul_div_mul_left _ _ hkne

theorem normalization_scale_invariance_witness :
    ((load_svgs_from_pdf (fun _ => ⟨2, 3, []⟩) 1).getD 0 default).width = 2 / 3
    ∧ ((load_svgs_from_pdf (fun _ => ⟨2, 3, []⟩) 1).getD 0 default).height = 3 / 3
    ∧ ((load_svgs_from_pdf (fun _ => ⟨2, 3, []⟩) 1).getD 0 default).depth = 3 / 3
    ∧ (load_svgs_from_pdf (fun p => scaleSVG 5 ((fun _ => ⟨2, 3, []⟩) p)) 1).getD 0 default
        = (load_svgs_from_pdf (fun _ => ⟨2, 3, []⟩) 1).getD 0 default :=
  normalization_scale_invariance (fun _ => ⟨2, 3, []⟩) 1 0 5 (by decide) (by decide)

theorem init_chunks_eq (preamble : List Char) (clippings : List (List Char)) :
    init_chunks preamble clippings
      = mkChunk (str "preamble")
          (pySplit nl preamble
            ++ [str "\\usepackage\x7btrimclip\x7d", str "\\begin\x7bdocument\x7d"])
          false none
        :: mkChunk (str "lowercase x") [str "x"] true none
        :: ((clippings.enumFrom 0).flatMap (fun ic => clippingChunks ic.1 ic.2)
            ++ [mkChunk (str "document end") [str "\\end\x7bdocument\x7d"] false none]) := by
  rw [init_chunks, ← List.enum_eq_enumFrom]
  rfl

/-- Claim C8: for every preamble and snippet sequence, document assembly is
a total function (no error branch exists) returning the chunk list
`[preamble chunk, reference-glyph chunk] ++ (two tagged chunks per snippet,
in input order) ++ [closing chunk]`: the length is `2n + 3`, positions 0, 1
and `2n + 2` hold the preamble, lowercase-x and document-end chunks, and
for each snippet `i` the chunks at positions `2 + 2i` and `3 + 2i` are
tagged with `clipping_index = i`, the first carrying the snippet's own
lines starting at its `source_start`. -/
theorem assembly_totality (preamble : List Char) (clippings : List (List Char)) :
    (init_chunks preamble clippings).length = 2 * clippings.length + 3
    ∧ ((init_chunks preamble clippings).getD 0 default).name = str "preamble"
    ∧ ((init_chunks preamble clippings).getD 0 default).clipping_index = none
    ∧ ((init_chunks preamble clippings).getD 1 default).name = str "lowercase x"
    ∧ ((init_chunks preamble clippings).getD 1 default).clipping_index = none
    ∧ ((init_chunks preamble clippings).getD (2 * clippings.length + 2) default).name
        = str "document end"
    ∧ ((init_chunks preamble clippings).getD (2 * clippings.length + 2)
        default).clipping_index = none
    ∧ ∀ i, i < clippings.length →
        ((init_chunks preamble clippings).getD (2 + 2 * i) default).clipping_index
            = some i
        ∧ ((init_chunks preamble clippings).getD (2 + 2 * i) default).source_start = 2
        ∧ ((init_chunks preamble clippings).getD (2 + 2 * i) default).lines.drop 2
            = pySplit nl (clippings.getD i [])
        ∧ ((init_chunks preamble clippings).getD (3 + 2 * i) default).clipping_index
            = some i := by
  have hlen : ((clippings.enumFrom 0).flatMap
      (fun ic => clippingChunks ic.1 ic.2)).length = 2 * clippings.length :=
    clipping_flatMap_length clippings 0
  rw [init_chunks_eq]
  refine ⟨?_, rfl, rfl, rfl, rfl, ?_, ?_, ?_⟩
  · simp only [List.length_cons, List.length_append, hlen, List.length_singleton,
      List.length_nil]
  · have hidx : 2 * clippings.length + 2 = (2 * clippings.length) + 1 + 1 := by omega
    rw [hidx, List.getD_cons_succ, List.getD_cons_succ]
    rw [List.getD_append_right _ _ _ _ (le_of_eq hlen)]
    rw [hlen]
    have : 2 * clippings.length - 2 * clippings.length = 0 := by omega
    rw [this]
    rfl
  · have hidx : 2 * clippings.length + 2 = (2 * clippings.length) + 1 + 1 := by omega
    rw [hidx, List.getD_cons_succ, List.getD_cons_succ]
    rw [List.getD_append_right _ _ _ _ (le_of_eq hlen)]
    rw [hlen]
    have : 2 * clippings.length - 2 * clippings.length = 0 := by omega
    rw [this]
    rfl
  · intro i hi
    have hA := (clipping_flatMap_getD clippings 0 i hi).1
    have hB := (clipping_flatMap_getD clippings 0 i hi).2
    have hidx2 : 2 + 2 * i = (2 * i) + 1 + 1 := by omega
    have hidx3 : 3 + 2 * i = (2 * i + 1) + 1 + 1 := by omega
    have hmem2 : (2 : Nat) * i <
        ((clippings.enumFrom 0).flatMap (fun ic => clippingChunks ic.1 ic.2)).length := by
      rw [hlen]; omega
    have hmem3 : (2 : Nat) * i + 1 <
        ((clippings.enumFrom 0).flatMap (fun ic => clippingChunks ic.1 ic.2)).length := by
      rw [hlen]; omega
    refine ⟨?_, ?_, ?_, ?_⟩
    · rw [hidx2, List.getD_cons_succ, List.getD_cons_succ,
        List.getD_append _ _ _ _ hmem2, hA]
      simp [clippingChunks, mkChunk]
    · rw [hidx2, List.getD_cons_succ, List.getD_cons_succ,
        List.getD_append _ _ _ _ hmem2, hA]
      simp [clippingChunks, mkChunk]
    · rw [hidx2, List.getD_cons_succ, List.getD_cons_succ,
        List.getD_append _ _ _ _ hmem2, hA]
      simp [clippingChunks, mkChunk]
    · rw [hidx3, List.getD_cons_succ, List.getD_cons_succ,
        List.getD_append _ _ _ _ hmem3, hB]
      simp [clippingChunks, mkChunk]

theorem assembly_totality_witness :
    (init_chunks (str "p") [str "a"]).length
        = 2 * ([str "a"] : List (List Char)).length + 3
    ∧ ((init_chunks (str "p") [str "a"]).getD (2 + 2 * 0) default).clipping_index
        = some 0 :=
  ⟨(assembly_totality (str "p") [str "a"]).1,
    ((assembly_totality (str "p") [str "a"]).2.2.2.2.2.2.2 0 (by decide)).1⟩

theorem chunkSep_ne_nil : chunkSep ≠ [] := by decide

theorem chunkSep_noBorder : noBorder chunkSep := by
  unfold noBorder
  decide

/-- Claim C3: splitting `prologue ++ (marker + newline + body_0) ++ ... ++
(marker + newline + body_(n-1))` on the marker-plus-newline string and
discarding the first element (the pre-first-marker prologue, which by
definition does not itself contain the marker-plus-newline substring)
yields exactly the `n` bodies in order, for every `n >= 1` and bodies not
containing the marker-plus-newline substring — so log sections align 1:1
with chunks. -/
theorem marker_section_alignment (prologue : List Char)
    (bodies : List (List Char)) (_hn : bodies ≠ [])
    (hb : ∀ b ∈ bodies, ¬ chunkSep <:+: b) (hp : ¬ chunkSep <:+: prologue) :
    (pySplit chunkSep
        (prologue ++ (bodies.map (fun b => chunkSep ++ b)).flatten)).drop 1
      = bodies
    ∧ ((pySplit chunkSep
        (prologue ++ (bodies.map (fun b => chunkSep ++ b)).flatten)).drop 1).length
      = bodies.length := by
  have h := pySplit_marked_bodies chunkSep_noBorder chunkSep_ne_nil bodies hb prologue hp
  rw [h]
  exact ⟨rfl, rfl⟩

theorem marker_section_alignment_witness :
    (pySplit chunkSep
        (str "banner" ++ (([str "a", str "b"]).map (fun b => chunkSep ++ b)).flatten)).drop 1
      = [str "a", str "b"]
    ∧ ((pySplit chunkSep
        (str "banner" ++ (([str "a", str "b"]).map (fun b => chunkSep ++ b)).flatten)).drop 1).length
      = ([str "a", str "b"] : List (List Char)).length :=
  marker_section_alignment (str "banner") [str "a", str "b"]
    (by decide) (by decide) (by decide)

theorem latexFileStr_flatten (preamble : List Char) (clippings : List (List Char)) :
    latexFileStr (init_chunks preamble clippings)
      = pyJoin nl (((init_chunks preamble clippings).map (fun c => c.lines)).flatten) := by
  rw [latexFileStr]
  have hmap : (init_chunks preamble clippings).map chunkStr
      = ((init_chunks preamble clippings).map (fun c => c.lines)).map (pyJoin nl) := by
    rw [List.map_map]
    rfl
  rw [hmap]
  exact pyJoin_flatten nl _ (fun b hb => by
    rcases List.mem_map.mp hb with ⟨ch, hch, hrfl⟩
    rw [← hrfl]
    exact init_chunks_lines_ne_nil preamble clippings ch hch)

/-- Claim C10: for every assembled document, splitting the serialized
document text on newline yields exactly the concatenation of all chunks'
`lines` (hence `sum(len(lines))` lines in total), and the line at absolute
zero-based position `(sum of len(lines) over chunks before i) + j` is chunk
`i`'s `lines[j]` — the cumulative-offset correspondence that the error
localizer's subtraction depends on.  (The assembler guarantees by
construction that no individual chunk line contains a newline.) -/
theorem serialization_line_offsets (preamble : List Char)
    (clippings : List (List Char)) :
    pySplit nl (latexFileStr (init_chunks preamble clippings))
        = ((init_chunks preamble clippings).map (fun c => c.lines)).flatten
    ∧ (pySplit nl (latexFileStr (init_chunks preamble clippings))).length
        = ((init_chunks preamble clippings).map (fun c => c.lines.length)).sum
    ∧ ∀ i j, i < (init_chunks preamble clippings).length →
        j < (((init_chunks preamble clippings).getD i default).lines).length →
        (pySplit nl (latexFileStr (init_chunks preamble clippings))).getD
            ((((init_chunks preamble clippings).take i).map
              (fun c => c.lines.length)).sum + j) []
          = (((init_chunks preamble clippings).getD i default).lines).getD j [] := by
  have hsplit : pySplit nl (latexFileStr (init_chunks preamble clippings))
      = ((init_chunks preamble clippings).map (fun c => c.lines)).flatten := by
    rw [latexFileStr_flatten, nl_eq]
    refine pySplit_pyJoin_single '\n' _ ?_ ?_
    · rw [init_chunks_eq]
      simp only [List.map_cons, List.flatten_cons]
      intro hcontra
      rcases List.append_eq_nil.mp hcontra with ⟨h1, _⟩
      exact mkChunk_lines_ne_nil _ _ _ _ h1
    · intro l hl
      rcases List.mem_flatten.mp hl with ⟨block, hblock, hlb⟩
      rcases List.mem_map.mp hblock with ⟨ch, hch, hrfl⟩
      rw [← hrfl] at hlb
      exact init_chunks_lines_nl_free preamble clippings ch hch l hlb
  refine ⟨hsplit, ?_, ?_⟩
  · rw [hsplit, List.length_flatten, List.map_map]
    rfl
  · intro i j hi hj
    rw [hsplit]
    have hbs : ((init_chunks preamble clippings).map (fun c => c.lines)).getD i []
        = ((init_chunks preamble clippings).getD i default).lines := by
      rw [List.getD_eq_getElem _ _ (by simpa using hi),
        List.getD_eq_getElem _ _ hi, List.getElem_map]
    have htake : (((init_chunks preamble clippings).map (fun c => c.lines)).take i).map
          List.length
        = ((init_chunks preamble clippings).take i).map (fun c => c.lines.length) := by
      rw [← List.map_take, List.map_map]
      rfl
    have h := flatten_getD ((init_chunks preamble clippings).map (fun c => c.lines))
      i j [] (by simpa using hi) (by rw [hbs]; exact hj)
    rw [htake, hbs] at h
    exact h

theorem serialization_line_offsets_witness :
    pySplit nl (latexFileStr (init_chunks (str "p") []))
        = ((init_chunks (str "p") []).map (fun c => c.lines)).flatten
    ∧ (pySplit nl (latexFileStr (init_chunks (str "p") []))).getD
          ((((init_chunks (str "p") []).take 1).map
            (fun c => c.lines.length)).sum + 0) []
        = (((init_chunks (str "p") []).getD 1 default).lines).getD 0 [] :=
  ⟨(serialization_line_offsets (str "p") []).1,
    (serialization_line_offsets (str "p") []).2.2 1 0 (by decide) (by decide)⟩

theorem intRange_length (lo hi : Int) : (intRange lo hi).length = (hi - lo).toNat := by
  rw [intRange, List.length_map, List.length_range]

theorem intRange_getElem (lo hi : Int) (k : Nat) (hk : k < (intRange lo hi).length) :
    (intRange lo hi).get ⟨k, hk⟩ = lo + (k : Int) := by
  simp only [intRange, List.get_eq_getElem, List.getElem_map]
  congr 1
  rw [List.getElem_range]

theorem mem_intRange (lo hi : Int) (i : Int) (h : i ∈ intRange lo hi) :
    ∃ k : Nat, k < (hi - lo).toNat ∧ i = lo + (k : Int) := by
  simp only [intRange, List.mem_map, List.mem_range] at h
  rcases h with ⟨k, hk, hrfl⟩
  exact ⟨k, hk, hrfl.symm⟩

/-- Claim C6: the context excerpt built for offending rendered-line index
`e` consists exactly of the chunk's own rendered lines at indices `i` in
`[max(source_start, e-2), min(len(rendered_lines), e+3))`, in order
(stripping the two-character prefix recovers precisely that contiguous
slice of `rendered_lines`, so no line of any preceding chunk can appear,
even when `e` is the chunk's first source line), each line prefixed with
`"> "` when `i = e` and `"  "` otherwise; and every index in the window
lies within `[source_start, len(rendered_lines))`. -/
theorem context_window_clipping (chunk : LatexChunk) (e : Int) :
    (∀ i ∈ intRange (max (chunk.source_start : Int) (e - 2))
        (min (chunk.lines.length : Int) (e + 3)),
      (chunk.source_start : Int) ≤ i ∧ i < (chunk.lines.length : Int))
    ∧ (contextLines chunk e).map (fun l => l.drop 2)
        = (chunk.lines.drop (max (chunk.source_start : Int) (e - 2)).toNat).take
            ((min (chunk.lines.length : Int) (e + 3)
              - max (chunk.source_start : Int) (e - 2)).toNat)
    ∧ ∀ k, k < (contextLines chunk e).length →
        ((contextLines chunk e).getD k []).take 2
          = (if (max (chunk.source_start : Int) (e - 2) + (k : Int)) = e
              then str "> " else str "  ") := by
  have hlo_lb : (chunk.source_start : Int)
      ≤ max (chunk.source_start : Int) (e - 2) := le_max_left _ _
  have hlo_nonneg : (0 : Int) ≤ max (chunk.source_start : Int) (e - 2) := by
    have : (0 : Int) ≤ (chunk.source_start : Int) := Int.ofNat_nonneg _
    omega
  have hhi_ub : min (chunk.lines.length : Int) (e + 3)
      ≤ (chunk.lines.length : Int) := min_le_left _ _
  refine ⟨?_, ?_, ?_⟩
  · intro i hi
    rcases mem_intRange _ _ i hi with ⟨k, hk, hrfl⟩
    have hk2 : (k : Int) < min (chunk.lines.length : Int) (e + 3)
        - max (chunk.source_start : Int) (e - 2) := Int.lt_toNat.mp hk
    constructor
    · omega
    · omega
  · have hstrip : (contextLines chunk e).map (fun l => l.drop 2)
        = (intRange (max (chunk.source_start : Int) (e - 2))
            (min (chunk.lines.length : Int) (e + 3))).map
          (fun i => chunk.lines.getD i.toNat []) := by
      rw [contextLines, List.map_map]
      refine List.map_congr_left ?_
      intro i _
      simp only [Function.comp]
      by_cases hcase : i = e
      · rw [if_pos hcase]; rfl
      · rw [if_neg hcase]; rfl
    rw [hstrip]
    by_cases hord : max (chunk.source_start : Int) (e - 2)
        < min (chunk.lines.length : Int) (e + 3)
    · refine List.ext_getElem ?_ ?_
      · rw [List.length_map, intRange_length, List.length_take, List.length_drop]
        omega
      · intro k h1 h2
        rw [List.getElem_map]
        have hk : k < (min (chunk.lines.length : Int) (e + 3)
            - max (chunk.source_start : Int) (e - 2)).toNat := by
          rw [List.length_map, intRange_length] at h1
          exact h1
        have hget : (intRange (max (chunk.source_start : Int) (e - 2))
              (min (chunk.lines.length : Int) (e + 3))).get ⟨k, by
                rw [intRange_length]; exact hk⟩
            = max (chunk.source_start : Int) (e - 2) + (k : Int) :=
          intRange_getElem _ _ k _
        rw [List.get_eq_getElem] at hget
        rw [hget]
        have htoNat : (max (chunk.source_start : Int) (e - 2) + (k : Int)).toNat
            = (max (chunk.source_start : Int) (e - 2)).toNat + k := by
          omega
        have hk2 : (k : Int) < min (chunk.lines.length : Int) (e + 3)
            - max (chunk.source_start : Int) (e - 2) := Int.lt_toNat.mp hk
        have hbound : (max (chunk.source_start : Int) (e - 2)).toNat + k
            < chunk.lines.length := by
          omega
        rw [htoNat, List.getD_eq_getElem _ _ hbound]
        rw [List.getElem_take, List.getElem_drop]
    · have hz : (min (chunk.lines.length : Int) (e + 3)
          - max (chunk.source_start : Int) (e - 2)).toNat = 0 := by
        omega
      rw [intRange, hz]
      simp
  · intro k hk
    rw [contextLines] at hk ⊢
    rw [List.length_map, intRange_length] at hk
    have hgd : ((intRange (max (chunk.source_start : Int) (e - 2))
          (min (chunk.lines.length : Int) (e + 3))).map
        (fun i => (if i = e then str "> " else str "  ")
          ++ chunk.lines.getD i.toNat [])).getD k []
        = (if (max (chunk.source_start : Int) (e - 2) + (k : Int)) = e
            then str "> " else str "  ")
          ++ chunk.lines.getD (max (chunk.source_start : Int) (e - 2)
              + (k : Int)).toNat [] := by
      rw [List.getD_eq_getElem _ _ (by
        rw [List.length_map, intRange_length]; exact hk)]
      rw [List.getElem_map]
      have := intRange_getElem (max (chunk.source_start : Int) (e - 2))
        (min (chunk.lines.length : Int) (e + 3)) k (by
          rw [intRange_length]; exact hk)
      rw [List.get_eq_getElem] at this
      rw [this]
    rw [hgd]
    by_cases hcase : (max (chunk.source_start : Int) (e - 2) + (k : Int)) = e
    · rw [if_pos hcase]; rfl
    · rw [if_neg hcase]; rfl

theorem context_window_clipping_witness :
    (∀ i ∈ intRange
        (max ((mkChunk (str "c") [str "a"] true none).source_start : Int) (2 - 2))
        (min ((mkChunk (str "c") [str "a"] true none).lines.length : Int) (2 + 3)),
      ((mkChunk (str "c") [str "a"] true none).source_start : Int) ≤ i
        ∧ i < ((mkChunk (str "c") [str "a"] true none).lines.length : Int))
    ∧ ((contextLines (mkChunk (str "c") [str "a"] true none) 2).getD 0 []).take 2
        = str "> " :=
  ⟨(context_window_clipping (mkChunk (str "c") [str "a"] true none) 2).1, by
    have h := (context_window_clipping (mkChunk (str "c") [str "a"] true none) 2).2.2
      0 (by decide)
    rw [if_pos (by decide)] at h
    exact h⟩

/-- Claim C4: the log parser reports at most one error per invocation (its
outcome is a single optional error record); the error comes from the first
section, in chunk order over `zip(chunks, sections)`, whose regex search
succeeds — sections after the first match never contribute — and when no
paired section contains the fatal two-line pattern (a `"! "` message line
immediately followed by an `"l.<digits> "` reference line), the parser
returns without raising.  Within a section the match is the first such
adjacent line pair. -/
theorem first_error_tie_break (chunks : List LatexChunk) (log : List Char) :
    ((∀ k, k < chunks.length → k < ((pySplit chunkSep log).drop 1).length →
        findFatal (((pySplit chunkSep log).drop 1).getD k []) = none) →
      parse_pdflatex_log chunks log = none)
    ∧ (∀ c, c < chunks.length → c < ((pySplit chunkSep log).drop 1).length →
        (∀ k, k < c → findFatal (((pySplit chunkSep log).drop 1).getD k []) = none) →
        ∀ msg : List Char, ∀ n : Nat,
          findFatal (((pySplit chunkSep log).drop 1).getD c []) = some (msg, n) →
          parse_pdflatex_log chunks log
            = some (errorFor chunks c (chunks.getD c default) msg n))
    ∧ (∀ lines : List (List Char), ∀ j : Nat, ∀ msg : List Char, ∀ n : Nat,
        j + 1 < lines.length →
        (∀ j2, j2 < j →
          matchFatalPair (lines.getD j2 []) (lines.getD (j2 + 1) []) = none) →
        matchFatalPair (lines.getD j []) (lines.getD (j + 1) []) = some (msg, n) →
        findFatalInLines lines = some (msg, n)) := by
  refine ⟨?_, ?_, ?_⟩
  · intro h
    exact scanSections_none chunks chunks ((pySplit chunkSep log).drop 1) 0 h
  · intro c hc hs hprev msg n hf
    have h := scanSections_some chunks c chunks ((pySplit chunkSep log).drop 1)
      0 hc hs hprev msg n hf
    rw [Nat.zero_add] at h
    exact h
  · intro lines j msg n hj hprev hm
    exact findFatalInLines_first lines j hj hprev msg n hm

theorem first_error_tie_break_witness :
    parse_pdflatex_log (init_chunks (str "p") []) (str "hello") = none
    ∧ parse_pdflatex_log (init_chunks (str "p") [])
        (str "x" ++ chunkSep ++ str "! Oops\nl.5 junk")
      = some (errorFor (init_chunks (str "p") []) 0
          ((init_chunks (str "p") []).getD 0 default) (str "Oops") 5)
    ∧ findFatalInLines [str "! B", str "l.3 z"] = some (str "B", 3) :=
  ⟨(first_error_tie_break (init_chunks (str "p") []) (str "hello")).1 (by decide),
   (first_error_tie_break (init_chunks (str "p") [])
      (str "x" ++ chunkSep ++ str "! Oops\nl.5 junk")).2.1
     0 (by decide) (by decide) (by decide) (str "Oops") 5 (by decide),
   (first_error_tie_break (init_chunks (str "p") []) (str "")).2.2
     [str "! B", str "l.3 z"] 0 (str "B") 3 (by decide) (by decide) (by decide)⟩

/-- Claim C1: for every chunk list built by the assembler and every log
whose first fatal pattern falls in the section paired with the chunk at
position `c` and reports one-indexed absolute document line `L = n`, the
raised error record carries line number
`n - (sum of len(lines) over chunks before c) - source_start` — a number
one-indexed relative to the original snippet text and (since every
assembled chunk has `source_start >= 1`) strictly smaller than the raw
absolute line number. -/
theorem line_offset_round_trip (preamble : List Char)
    (clippings : List (List Char)) (log : List Char) (c : Nat)
    (msg : List Char) (n : Nat)
    (hc : c < (init_chunks preamble clippings).length)
    (hs : c < ((pySplit chunkSep log).drop 1).length)
    (hprev : ∀ k, k < c →
      findFatal (((pySplit chunkSep log).drop 1).getD k []) = none)
    (hf : findFatal (((pySplit chunkSep log).drop 1).getD c []) = some (msg, n)) :
    ∃ e : LatexError,
      parse_pdflatex_log (init_chunks preamble clippings) log = some e
      ∧ e.line_num = (n : Int)
          - (((init_chunks preamble clippings).take c).map
              (fun ch => (ch.lines.length : Int))).sum
          - (((init_chunks preamble clippings).getD c default).source_start : Int)
      ∧ e.line_num < (n : Int) := by
  have hscan := scanSections_some (init_chunks preamble clippings) c
    (init_chunks preamble clippings) ((pySplit chunkSep log).drop 1)
    0 hc hs hprev msg n hf
  rw [Nat.zero_add] at hscan
  have hline : (errorFor (init_chunks preamble clippings) c
        ((init_chunks preamble clippings).getD c default) msg n).line_num
      = (n : Int)
        - (((init_chunks preamble clippings).take c).map
            (fun ch => (ch.lines.length : Int))).sum
        - (((init_chunks preamble clippings).getD c default).source_start : Int) := by
    simp only [errorFor]
    ring
  have hS : (0 : Int) ≤ (((init_chunks preamble clippings).take c).map
      (fun ch => (ch.lines.length : Int))).sum := by
    refine List.sum_nonneg ?_
    intro x hx
    rcases List.mem_map.mp hx with ⟨ch, _, hrfl⟩
    rw [← hrfl]
    exact Int.ofNat_nonneg _
  have hss : 1 ≤ ((init_chunks preamble clippings).getD c default).source_start := by
    refine init_chunks_source_start_pos preamble clippings _ ?_
    rw [List.getD_eq_getElem _ _ hc]
    exact List.getElem_mem hc
  refine ⟨_, hscan, hline, ?_⟩
  rw [hline]
  omega

theorem line_offset_round_trip_witness :
    ∃ e : LatexError,
      parse_pdflatex_log (init_chunks (str "p") [])
          (str "x" ++ chunkSep ++ str "! Err\nl.7 bad") = some e
      ∧ e.line_num = ((7 : Nat) : Int)
          - (((init_chunks (str "p") []).take 0).map
              (fun ch => (ch.lines.length : Int))).sum
          - (((init_chunks (str "p") []).getD 0 default).source_start : Int)
      ∧ e.line_num < ((7 : Nat) : Int) :=
  line_offset_round_trip (str "p") [] (str "x" ++ chunkSep ++ str "! Err\nl.7 bad")
    0 (str "Err") 7 (by decide) (by decide) (by decide) (by decide)
